import Mathlib

/-!
Verification model of the syntaqx/env configuration library
(files unmarshal.go and helpers.go of the repository).

Go strings are modelled as Lean strings, manipulated through their
character lists; the Go code indexes bytes, which agrees with characters
on the ASCII annotation strings this library is used with.  The process
environment and the file system are modelled as association lists (the
spec treats both as opaque collaborators: a key lookup returning a value
and a presence flag, and a file read returning content or failing).
IEEE-754 float parsing (strconv.ParseFloat) is kept abstract: model
functions take a float-parsing function as an explicit parameter and no
claim depends on its behaviour.
-/

namespace EnvSpec

/-- Model of an environment: an association list from variable names to
values.  A key is present iff it occurs in the list (first binding wins,
as for a map). -/
abbrev Env : Type := List (String × String)

/-- Model of os.LookupEnv: value and presence flag for a key. -/
def envLookup (env : Env) (key : String) : Option String :=
  (env.find? (fun p => p.1 == key)).map (fun p => p.2)

/-- Model of the file system: association list from paths to contents. -/
abbrev FileSys : Type := List (String × String)

/-- Model of readFileContent (unmarshal.go lines 142-148, over os.ReadFile):
returns the file content, or the read error when the path does not exist. -/
def readFileContent (fs : FileSys) (filePath : String) : Except String String :=
  match (fs.find? (fun p => p.1 == filePath)).map (fun p => p.2) with
  | some content => .ok content
  | none => .error ("open " ++ filePath ++ ": no such file or directory")

/-! ## Character-list models of the Go strings helpers -/

/-- Whether pat is a prefix of l (strings.HasPrefix on character lists). -/
def hasPrefixCL : List Char → List Char → Bool
  | [], _ => true
  | _ :: _, [] => false
  | p :: ps, c :: cs => p == c && hasPrefixCL ps cs

/-- Whether pat occurs as a contiguous substring (strings.Contains). -/
def containsSub (pat : List Char) : List Char → Bool
  | [] => pat.isEmpty
  | c :: cs => hasPrefixCL pat (c :: cs) || containsSub pat cs

/-- Go strings.Split with a one-character separator (the library only
splits on "," and "|").  Always returns at least one piece. -/
def splitOnChar (sep : Char) : List Char → List (List Char)
  | [] => [[]]
  | c :: cs =>
    match splitOnChar sep cs with
    | [] => [[]]
    | h :: t => if c == sep then [] :: h :: t else (c :: h) :: t

/-- Go strings.SplitN(s, sep, 2) with a one-character separator: the part
before the first separator, and optionally everything after it. -/
def splitFirst (sep : Char) : List Char → List Char × Option (List Char)
  | [] => ([], none)
  | c :: cs =>
    if c == sep then ([], some cs)
    else
      let r := splitFirst sep cs
      (c :: r.1, r.2)

/-- Go strings.Split(s, sep) for a one-character separator, at String type. -/
def goSplit (s : String) (sep : Char) : List String :=
  (splitOnChar sep s.data).map (fun l => (⟨l⟩ : String))

/-- ASCII whitespace test (unicode.IsSpace restricted to the ASCII
characters that can occur in struct tags). -/
def isSpaceChar (c : Char) : Bool :=
  c == ' ' || c == '\t' || c == '\n' || c == '\r'

/-- Go strings.TrimSpace on character lists. -/
def trimChars (l : List Char) : List Char :=
  ((l.dropWhile isSpaceChar).reverse.dropWhile isSpaceChar).reverse

/-! ## Tag parsing (unmarshal.go lines 161-230) -/

/-- Parsed tag options (struct tagOptions, unmarshal.go lines 162-168). -/
structure tagOptions where
  keys : List String
  fallback : String
  required : Bool
  file : Bool
  expand : Bool
deriving Repr, DecidableEq

/-- Model of the regexp (?:default|fallback)=\[(.*?)] applied with
FindStringSubmatch at one position: if the position starts with
"default=[" or "fallback=[" and a ']' occurs later, the first capture
group is everything up to the first following ']'. -/
def tryBracketAt (l : List Char) : Option (List Char) :=
  let after :=
    if hasPrefixCL "default=[".data l then some (l.drop 9)
    else if hasPrefixCL "fallback=[".data l then some (l.drop 10)
    else none
  match after with
  | none => none
  | some r => if r.contains ']' then some (r.takeWhile (fun c => c != ']')) else none

/-- Leftmost match of the bracketed-fallback regexp: scan positions left
to right, as the regexp engine does. -/
def findBracketFallback : List Char → Option (List Char)
  | [] => none
  | c :: rest =>
    match tryBracketAt (c :: rest) with
    | some g => some g
    | none => findBracketFallback rest

/-- Model of the regexp (?:default|fallback)=([^,]+) at one position: the
capture group is the maximal nonempty run of non-comma characters after
the prefix. -/
def tryPlainAt (l : List Char) : Option (List Char) :=
  let after :=
    if hasPrefixCL "default=".data l then some (l.drop 8)
    else if hasPrefixCL "fallback=".data l then some (l.drop 9)
    else none
  match after with
  | none => none
  | some r =>
    let g := r.takeWhile (fun c => c != ',')
    if g.isEmpty then none else some g

/-- Leftmost match of the plain-fallback regexp. -/
def findPlainFallback : List Char → Option (List Char)
  | [] => none
  | c :: rest =>
    match tryPlainAt (c :: rest) with
    | some g => some g
    | none => findPlainFallback rest

/-- Model of parsePart (unmarshal.go lines 210-230): classifies one option
segment, updating at most one component of the accumulated options. -/
def parsePart (part : List Char) (acc : tagOptions) : tagOptions :=
  if containsSub "default=[".data part || containsSub "fallback=[".data part then
    match findBracketFallback part with
    | some g => { acc with fallback := ⟨g⟩ }
    | none => acc
  else if containsSub "default=".data part || containsSub "fallback=".data part then
    match findPlainFallback part with
    | some g => { acc with fallback := ⟨g⟩ }
    | none => acc
  else if trimChars part = "required".data then { acc with required := true }
  else if trimChars part = "file".data then { acc with file := true }
  else if trimChars part = "expand".data then { acc with expand := true }
  else acc

/-- Model of the character scan in parseTag (unmarshal.go lines 179-198):
walk the option list, tracking a single in-brackets flag, splitting
segments at top-level commas only; cur is the current segment
(extraParts[start:i] in the source). -/
def scanParts (inBrackets : Bool) (cur : List Char) (acc : tagOptions) :
    List Char → tagOptions
  | [] => parsePart cur acc
  | c :: cs =>
    if c == '[' then scanParts true (cur ++ [c]) acc cs
    else if c == ']' then scanParts false (cur ++ [c]) acc cs
    else if c == ',' && !inBrackets then scanParts false [] (parsePart cur acc) cs
    else scanParts inBrackets (cur ++ [c]) acc cs

/-- Model of parseTag (unmarshal.go lines 170-208): SplitN on the first
comma, split the key-spec on pipes, then scan the option list. -/
def parseTag (tag : String) : tagOptions :=
  let sp := splitFirst ',' tag.data
  let keys : List String := (splitOnChar '|' sp.1).map (fun l => (⟨l⟩ : String))
  let base : tagOptions :=
    { keys := keys, fallback := "", required := false, file := false, expand := false }
  match sp.2 with
  | none => base
  | some extra => scanParts false [] base extra

/-! ## Primitive parsing (helpers.go, strconv) -/

/-- Model of parseBool (helpers.go lines 9-18): case-insensitive match of
the accepted literals, error otherwise. -/
def parseBool (value : String) : Except String Bool :=
  let lv : String := ⟨value.data.map Char.toLower⟩
  if lv = "true" ∨ lv = "1" ∨ lv = "yes" then .ok true
  else if lv = "false" ∨ lv = "0" ∨ lv = "no" then .ok false
  else .error ("invalid boolean value " ++ value)

/-- Decimal digit value of a character, if it is one. -/
def digitVal (c : Char) : Option Nat :=
  if '0' ≤ c ∧ c ≤ '9' then some (c.toNat - 48) else none

/-- Accumulate decimal digits left to right; none on a non-digit. -/
def natOfDigitsAux (acc : Nat) : List Char → Option Nat
  | [] => some acc
  | c :: cs =>
    match digitVal c with
    | none => none
    | some d => natOfDigitsAux (acc * 10 + d) cs

/-- Model of strconv.ParseUint(s, 10, bits): digits only (no sign), error
on empty input, non-digit characters, or a value outside bits bits. -/
def goParseUint (s : String) (bits : Nat) : Except String Nat :=
  match s.data with
  | [] => .error ("invalid syntax: " ++ s)
  | c :: cs =>
    match natOfDigitsAux 0 (c :: cs) with
    | none => .error ("invalid syntax: " ++ s)
    | some n => if n < 2 ^ bits then .ok n else .error ("value out of range: " ++ s)

/-- Model of strconv.ParseInt(s, 10, bits): optional sign, decimal digits,
error on empty digits, non-digits, or a value outside the signed range.
strconv.Atoi(s) is ParseInt(s, 10, 0) with the 64-bit int of the target. -/
def goParseInt (s : String) (bits : Nat) : Except String Int :=
  match s.data with
  | [] => .error ("invalid syntax: " ++ s)
  | c :: cs =>
    let signDigits : Bool × List Char :=
      if c == '+' then (false, cs)
      else if c == '-' then (true, cs)
      else (false, c :: cs)
    match signDigits.2 with
    | [] => .error ("invalid syntax: " ++ s)
    | d :: ds =>
      match natOfDigitsAux 0 (d :: ds) with
      | none => .error ("invalid syntax: " ++ s)
      | some n =>
        let v : Int := if signDigits.1 then -(n : Int) else (n : Int)
        if -(2 ^ (bits - 1) : Int) ≤ v ∧ v < (2 ^ (bits - 1) : Int) then .ok v
        else .error ("value out of range: " ++ s)

/-- The element loop shared by the slice parsers (helpers.go): parse each
piece in order, failing with the first element error. -/
def mapExcept {β : Type} (f : String → Except String β) : List String → Except String (List β)
  | [] => .ok []
  | v :: vs =>
    match f v with
    | .error e => .error e
    | .ok b =>
      match mapExcept f vs with
      | .error e => .error e
      | .ok bs => .ok (b :: bs)

/-- Model of parseBoolSlice (helpers.go lines 21-32): split on commas and
parse each piece, failing on the first bad element. -/
def parseBoolSlice (value : String) : Except String (List Bool) :=
  mapExcept parseBool (goSplit value ',')

/-- Model of parseIntSlice (helpers.go lines 35-46): strconv.Atoi on each
comma-separated piece. -/
def parseIntSlice (value : String) : Except String (List Int) :=
  mapExcept (fun v => goParseInt v 64) (goSplit value ',')

/-- Model of parseUintSlice (helpers.go lines 49-60): ParseUint(v, 10, 64)
on each piece (the uint conversion is the identity on a 64-bit target). -/
def parseUintSlice (value : String) : Except String (List Nat) :=
  mapExcept (fun v => goParseUint v 64) (goSplit value ',')

/-- Model of parseFloatSlice (helpers.go lines 63-74), parameterized by
the abstract float parser pf (strconv.ParseFloat, not modelled). -/
def parseFloatSlice (pf : String → Except String Nat) (value : String) :
    Except String (List Nat) :=
  mapExcept pf (goSplit value ',')

/-! ## Field values and type coercion (unmarshal.go lines 232-301) -/

/-- Widths of Go signed integer kinds; iw is the platform int (64-bit). -/
inductive IntW where
  | iw | i8 | i16 | i32 | i64
deriving Repr, DecidableEq

def IntW.bits : IntW → Nat
  | .i8 => 8
  | .i16 => 16
  | .i32 => 32
  | .iw => 64
  | .i64 => 64

/-- Widths of Go unsigned integer kinds; uw is the platform uint. -/
inductive UintW where
  | uw | u8 | u16 | u32 | u64
deriving Repr, DecidableEq

def UintW.bits : UintW → Nat
  | .u8 => 8
  | .u16 => 16
  | .u32 => 32
  | .uw => 64
  | .u64 => 64

/-- A settable Go field value of one of the kinds setField supports.  The
float payload is the abstract result of the abstract float parser. -/
inductive GoValue where
  | vString (s : String)
  | vBool (b : Bool)
  | vInt (w : IntW) (v : Int)
  | vUint (w : UintW) (v : Nat)
  | vFloat (x : Nat)
  | vSliceString (xs : List String)
  | vSliceBool (xs : List Bool)
  | vSliceInt (xs : List Int)
  | vSliceUint (xs : List Nat)
  | vSliceFloat (xs : List Nat)
deriving Repr, DecidableEq

/-- Two's-complement truncation of an unsigned value to bits bits
(reflect.Value.SetUint stores through a plain integer conversion). -/
def wrapUint (bits : Nat) (n : Nat) : Nat := n % 2 ^ bits

/-- Two's-complement truncation of a signed value to bits bits
(reflect.Value.SetInt stores through a plain integer conversion, which
truncates silently for kinds narrower than 64 bits). -/
def wrapInt (bits : Nat) (v : Int) : Int :=
  let m := v % (2 ^ bits : Int)
  if m < (2 ^ (bits - 1) : Int) then m else m - (2 ^ bits : Int)

/-- Model of setField (unmarshal.go lines 232-301): empty string is a
no-op; otherwise parse per the field kind.  Integer kinds always parse
with bit size 64 (lines 248 and 254) and the reflect setter truncates to
the field's width.  pf is the abstract float parser. -/
def setField (pf : String → Except String Nat) (fld : GoValue) (value : String) :
    Except String GoValue :=
  if value = "" then .ok fld
  else
    match fld with
    | .vString _ => .ok (.vString value)
    | .vBool _ => (parseBool value).map .vBool
    | .vInt w _ => (goParseInt value 64).map (fun n => .vInt w (wrapInt w.bits n))
    | .vUint w _ => (goParseUint value 64).map (fun n => .vUint w (wrapUint w.bits n))
    | .vFloat _ => (pf value).map .vFloat
    | .vSliceString _ => .ok (.vSliceString (goSplit value ','))
    | .vSliceBool _ => (parseBoolSlice value).map .vSliceBool
    | .vSliceInt _ => (parseIntSlice value).map .vSliceInt
    | .vSliceUint _ => (parseUintSlice value).map .vSliceUint
    | .vSliceFloat _ => (parseFloatSlice pf value).map .vSliceFloat

/-! ## Placeholder expansion (unmarshal.go lines 89-139) -/

/-- First character of a $NAME placeholder name. -/
def isAlphaUnder (c : Char) : Bool := c.isAlpha || c == '_'

/-- Subsequent characters of a $NAME placeholder name. -/
def isAlphaNumUnder (c : Char) : Bool := c.isAlpha || c.isDigit || c == '_'

/-- The brace alternative of the placeholder regexp, matched against the
input after a dollar sign and an opening brace: a nonempty name of
non-closing-brace characters, then the closing brace.  Returns (whole
match, name, rest of the input). -/
def braceMatch (r : List Char) : Option (List Char × List Char × List Char) :=
  match r.drop (r.takeWhile (fun c => c != '}')).length with
  | [] => none
  | c :: r2 =>
    if c = '}' then
      if (r.takeWhile (fun c => c != '}')).isEmpty then none
      else some ('$' :: '{' :: (r.takeWhile (fun c => c != '}') ++ ['}']),
                 r.takeWhile (fun c => c != '}'), r2)
    else none

/-- The bare-name alternative of the placeholder regexp, matched against
the input after a dollar sign: a letter or underscore, then a maximal
run of identifier characters. -/
def dollarNameMatch (c : Char) (r : List Char) :
    Option (List Char × List Char × List Char) :=
  if isAlphaUnder c then
    some ('$' :: c :: r.takeWhile isAlphaNumUnder,
          c :: r.takeWhile isAlphaNumUnder,
          r.drop (r.takeWhile isAlphaNumUnder).length)
  else none

/-- One match attempt of the placeholder regexp at the head of l,
following leftmost-first alternation: the brace form is tried when a
brace follows the dollar sign (the bare form cannot match there), the
bare form otherwise. -/
def tryMatchAt (l : List Char) : Option (List Char × List Char × List Char) :=
  match l with
  | [] => none
  | [_] => none
  | c0 :: c1 :: r =>
    if c0 = '$' then
      if c1 = '{' then braceMatch r else dollarNameMatch c1 r
    else none

theorem braceMatch_rest_lt (r w nm rest : List Char)
    (h : braceMatch r = some (w, nm, rest)) : rest.length < r.length := by
  unfold braceMatch at h
  split at h
  · exact absurd h (by simp)
  · rename_i c r2 hdrop
    split at h
    · split at h
      · exact absurd h (by simp)
      · have hlen : (r.drop (r.takeWhile (fun c => c != '}')).length).length = r2.length + 1 := by
          rw [hdrop]; simp
        have hle : (r.drop (r.takeWhile (fun c => c != '}')).length).length ≤ r.length := by
          simp
        simp only [Option.some.injEq, Prod.mk.injEq] at h
        obtain ⟨-, -, hrest⟩ := h
        subst hrest
        omega
    · exact absurd h (by simp)

theorem dollarNameMatch_rest_le (c : Char) (r w nm rest : List Char)
    (h : dollarNameMatch c r = some (w, nm, rest)) : rest.length ≤ r.length := by
  unfold dollarNameMatch at h
  split at h
  · simp only [Option.some.injEq, Prod.mk.injEq] at h
    obtain ⟨-, -, hrest⟩ := h
    subst hrest
    simp
  · exact absurd h (by simp)

theorem tryMatchAt_rest_lt (l w nm rest : List Char)
    (h : tryMatchAt l = some (w, nm, rest)) : rest.length < l.length := by
  unfold tryMatchAt at h
  split at h
  · exact absurd h (by simp)
  · exact absurd h (by simp)
  · rename_i c0 c1 r
    split at h
    · split at h
      · have := braceMatch_rest_lt r w nm rest h
        simp only [List.length_cons]
        omega
      · have := dollarNameMatch_rest_le c1 r w nm rest h
        simp only [List.length_cons]
        omega
    · exact absurd h (by simp)

/-- Model of re.FindAllStringSubmatch for the placeholder regexp: scan
left to right; on a match record (whole, name) and continue after the
match (matches do not overlap); otherwise advance one character. -/
def findAllMatches : List Char → List (List Char × List Char)
  | [] => []
  | c :: cs =>
    match h : tryMatchAt (c :: cs) with
    | some (whole, nm, rest) => (whole, nm) :: findAllMatches rest
    | none => findAllMatches cs
termination_by l => l.length
decreasing_by
  · exact tryMatchAt_rest_lt _ _ _ _ h
  · simp

/-- Go strings.Replace(s, old, new, -1) on character lists: replace every
non-overlapping occurrence, left to right.  The callers below always pass
a nonempty old (a placeholder match starting with a dollar sign); for an
empty old the Go function instead interleaves new between characters. -/
def replaceAllCL (old new : List Char) (s : List Char) : List Char :=
  match s with
  | [] => []
  | c :: cs =>
    if h : old ≠ [] ∧ hasPrefixCL old (c :: cs) then
      new ++ replaceAllCL old new ((c :: cs).drop old.length)
    else
      c :: replaceAllCL old new cs
termination_by s.length
decreasing_by
  · have : old.length ≥ 1 := by
      cases old with
      | nil => exact absurd rfl h.1
      | cons o os => simp
    simp only [List.length_cons, List.length_drop]
    omega
  · simp

/-- One struct field of a Go configuration struct: either a non-struct
field carrying its env tag and current value, or a nested struct field
carrying its env tag and its own fields.  A struct is a list of these,
in declaration order. -/
inductive GoField where
  | scalar (tag : String) (val : GoValue)
  | nested (tag : String) (sub : List GoField)
deriving Repr

/-- The env tag of a field. -/
def GoField.tag : GoField → String
  | .scalar t _ => t
  | .nested t _ => t

/-- Model of getDefaultFromStruct (unmarshal.go lines 114-139): scan the
fields in order; a field whose first key equals fieldName and whose
fallback is nonempty yields that fallback; a struct field is searched
recursively, and a nonempty nested result wins before the scan moves on.
Only tags are inspected, never field values. -/
def getDefaultFromStruct (fieldName : String) : List GoField → String
  | [] => ""
  | f :: rest =>
    let tagOpts := parseTag f.tag
    if tagOpts.keys.headD "" = fieldName ∧ tagOpts.fallback ≠ "" then tagOpts.fallback
    else
      match f with
      | .nested _ sub =>
        let nestedValue := getDefaultFromStruct fieldName sub
        if nestedValue ≠ "" then nestedValue
        else getDefaultFromStruct fieldName rest
      | .scalar _ _ => getDefaultFromStruct fieldName rest
termination_by fs => sizeOf fs

/-- Model of expandVariables (unmarshal.go lines 89-111): collect all
placeholder matches of the original value, then for each match replace
every occurrence of its matched text by the environment value of its
name, or by the struct-declared default for that name, or by the empty
string.  The replacements are applied sequentially to the running
value, exactly as the source loop does with strings.Replace. -/
def expandVariables (env : Env) (ctx : List GoField) (value : String) : String :=
  let ms := findAllMatches value.data
  ms.foldl
    (fun v m =>
      let envVar : String := ⟨m.2⟩
      let envValue : String :=
        match envLookup env envVar with
        | some ev => ev
        | none => getDefaultFromStruct envVar ctx
      ⟨replaceAllCL m.1 envValue.data v.data⟩)
    value

/-! ## Field resolution and the struct walker (unmarshal.go lines 12-87, 150-159) -/

/-- Model of findFieldValue (unmarshal.go lines 150-159): try each key in
order under the prefix; the first present key wins, returning its value
(possibly empty) and a found flag. -/
def findFieldValue (env : Env) (keys : List String) (pfx : String) : String × Bool :=
  match keys with
  | [] => ("", false)
  | key :: rest =>
    match envLookup env (pfx ++ key) with
    | some val => (val, true)
    | none => findFieldValue env rest pfx

/-- The required-variable error (unmarshal.go line 79), naming the first
declared key. -/
def requiredErr (tagOpts : tagOptions) : String :=
  "required environment variable " ++ tagOpts.keys.headD "" ++ " is not set"

/-- Value resolution: lines 58-80 of unmarshalField factored out of the
coercion step.  Step order as in the source: key lookup, file
indirection when the file option is set and a key was found (a read
error aborts), fallback substitution when no key was found, expansion
when the expand option is set, then the required check on the final
value.  Returns the pre-coercion value and the found flag. -/
def resolveValue (env : Env) (fs : FileSys) (ctx : List GoField)
    (tagOpts : tagOptions) (pfx : String) : Except String (String × Bool) :=
  let p1 := findFieldValue env tagOpts.keys pfx
  let step2 : Except String (String × Bool) :=
    if tagOpts.file = true ∧ p1.2 = true then
      match readFileContent fs p1.1 with
      | .error e => .error e
      | .ok fileContent => .ok (fileContent, true)
    else .ok p1
  match step2 with
  | .error e => .error e
  | .ok (value0, found) =>
    let value1 := if found = false ∧ tagOpts.fallback ≠ "" then tagOpts.fallback else value0
    let value2 := if tagOpts.expand = true then expandVariables env ctx value1 else value1
    if tagOpts.required = true ∧ value2 = "" then .error (requiredErr tagOpts)
    else .ok (value2, found)

/-- Model of unmarshalField (unmarshal.go lines 56-87): parse the tag,
resolve the value, then coerce it into the field unless nothing was
found and the value is empty (in which case the field is untouched). -/
def unmarshalField (env : Env) (fs : FileSys) (pf : String → Except String Nat)
    (fld : GoValue) (tag pfx : String) (ctx : List GoField) : Except String GoValue :=
  let tagOpts := parseTag tag
  match resolveValue env fs ctx tagOpts pfx with
  | .error e => .error e
  | .ok (value, found) =>
    if found = true ∨ value ≠ "" then setField pf fld value else .ok fld

/-- Model of unmarshalWithPrefix and unmarshalStruct (unmarshal.go lines
17-54): walk the fields in declaration order.  A struct field is always
recursed into, under the prefix extended by its tag and an underscore
when the tag is nonempty; a non-struct field with an empty tag is
skipped; any error aborts immediately.  ctx is the current level's full
field list, passed as the structPtr for expansion; the source passes the
partially mutated struct, but expansion only ever reads tags, which the
walk never changes, so passing the original list is equivalent. -/
def unmarshalFields (env : Env) (fs : FileSys) (pf : String → Except String Nat)
    (pfx : String) (ctx : List GoField) : List GoField → Except String (List GoField)
  | [] => .ok []
  | .nested tag sub :: rest =>
    let newPfx := if tag ≠ "" then pfx ++ tag ++ "_" else pfx
    match unmarshalFields env fs pf newPfx sub sub with
    | .error e => .error e
    | .ok sub2 =>
      match unmarshalFields env fs pf pfx ctx rest with
      | .error e => .error e
      | .ok rest2 => .ok (.nested tag sub2 :: rest2)
  | .scalar tag val :: rest =>
    if tag = "" then
      match unmarshalFields env fs pf pfx ctx rest with
      | .error e => .error e
      | .ok rest2 => .ok (.scalar tag val :: rest2)
    else
      match unmarshalField env fs pf val tag pfx ctx with
      | .error e => .error e
      | .ok val2 =>
        match unmarshalFields env fs pf pfx ctx rest with
        | .error e => .error e
        | .ok rest2 => .ok (.scalar tag val2 :: rest2)
termination_by fields => sizeOf fields

/-- Model of Unmarshal (unmarshal.go lines 12-15): populate a struct from
the environment, starting with the empty prefix. -/
def Unmarshal (env : Env) (fs : FileSys) (pf : String → Except String Nat)
    (fields : List GoField) : Except String (List GoField) :=
  unmarshalFields env fs pf "" fields fields

/-- A concrete stand-in for the abstract float parser, used in concrete
scenarios that contain no float fields (its behaviour is irrelevant
there). -/
def noFloat : String → Except String Nat :=
  fun s => .error ("ParseFloat: parsing " ++ s ++ ": invalid syntax")

/-! ## Helper lemmas -/

theorem stringMk_data (s : String) : (⟨s.data⟩ : String) = s := rfl

theorem data_append (s t : String) : (s ++ t).data = s.data ++ t.data := by
  cases s; cases t; rfl

theorem splitOnChar_ne_nil (sep : Char) (l : List Char) : splitOnChar sep l ≠ [] := by
  induction l with
  | nil => simp [splitOnChar]
  | cons c cs ih =>
    simp only [splitOnChar]
    rcases h : splitOnChar sep cs with _ | ⟨hd, tl⟩
    · exact absurd h ih
    · show (if (c == sep) = true then [] :: hd :: tl else (c :: hd) :: tl) ≠ []
      split <;> simp

theorem parsePart_keys (part : List Char) (acc : tagOptions) :
    (parsePart part acc).keys = acc.keys := by
  unfold parsePart
  repeat' split
  all_goals rfl

theorem scanParts_keys (l : List Char) :
    ∀ (b : Bool) (cur : List Char) (acc : tagOptions),
      (scanParts b cur acc l).keys = acc.keys := by
  induction l with
  | nil =>
    intro b cur acc
    simpa [scanParts] using parsePart_keys cur acc
  | cons c cs ih =>
    intro b cur acc
    simp only [scanParts]
    split_ifs with h1 h2 h3
    · exact ih _ _ _
    · exact ih _ _ _
    · rw [ih]; exact parsePart_keys _ _
    · exact ih _ _ _

theorem parseTag_keys (tag : String) :
    (parseTag tag).keys =
      (splitOnChar '|' (splitFirst ',' tag.data).1).map (fun l => (⟨l⟩ : String)) := by
  simp only [parseTag]
  rcases h : (splitFirst ',' tag.data).2 with _ | extra
  · rfl
  · exact scanParts_keys _ _ _ _

/-- C10: parseTag is total (it is a function of this development) and its
key list is never empty, so indexing the first key in the required-error
path and in the expansion default search is always in bounds. -/
theorem claim_C10 (tag : String) : (parseTag tag).keys ≠ [] := by
  rw [parseTag_keys]
  simp only [ne_eq, List.map_eq_nil_iff]
  exact splitOnChar_ne_nil _ _

theorem claim_C10_witness : (parseTag "").keys ≠ [] := claim_C10 ""

/-! ## Lemmas for the bracketed-fallback claim -/

theorem splitFirst_append_sep (sep : Char) (l r : List Char) (h : sep ∉ l) :
    splitFirst sep (l ++ sep :: r) = (l, some r) := by
  induction l with
  | nil => simp [splitFirst]
  | cons c cs ih =>
    have hc : c ≠ sep := fun he => h (he ▸ List.mem_cons_self c cs)
    have ih2 := ih (fun hm => h (List.mem_cons_of_mem c hm))
    simp [splitFirst, hc, ih2]

theorem hasPrefixCL_append_self (pat rest : List Char) :
    hasPrefixCL pat (pat ++ rest) = true := by
  induction pat with
  | nil => simp [hasPrefixCL]
  | cons p ps ih => simp [hasPrefixCL, ih]

theorem containsSub_of_startsWith (pat l : List Char) (hp : pat ≠ [])
    (h : hasPrefixCL pat l = true) : containsSub pat l = true := by
  cases l with
  | nil =>
    cases pat with
    | nil => exact absurd rfl hp
    | cons p ps => simp [hasPrefixCL] at h
  | cons c cs => simp [containsSub, h]

theorem takeWhile_append_stop (p : Char → Bool) (l : List Char) (x : Char) (r : List Char)
    (hall : ∀ c ∈ l, p c = true) (hx : p x = false) :
    (l ++ x :: r).takeWhile p = l := by
  induction l with
  | nil => simp [List.takeWhile, hx]
  | cons c cs ih =>
    have hc := hall c (List.mem_cons_self c cs)
    have ih2 := ih (fun c' hm => hall c' (List.mem_cons_of_mem c hm))
    simp [List.takeWhile_cons, hc, ih2]

theorem scanParts_through_brackets (l : List Char) :
    ∀ (cur tail : List Char) (acc : tagOptions),
      ('[' : Char) ∉ l → (']' : Char) ∉ l →
      scanParts true cur acc (l ++ ']' :: tail) =
        scanParts false (cur ++ (l ++ [']'])) acc tail := by
  induction l with
  | nil =>
    intro cur tail acc _ _
    simp [scanParts]
  | cons c cs ih =>
    intro cur tail acc h1 h2
    have hc1 : c ≠ '[' := fun he => h1 (he ▸ List.mem_cons_self c cs)
    have hc2 : c ≠ ']' := fun he => h2 (he ▸ List.mem_cons_self c cs)
    have ih2 := ih (cur ++ [c]) tail acc
      (fun hm => h1 (List.mem_cons_of_mem c hm))
      (fun hm => h2 (List.mem_cons_of_mem c hm))
    simp only [List.cons_append, scanParts, hc1, hc2, beq_iff_eq, if_false,
      Bool.not_true, Bool.and_false, Bool.false_eq_true]
    rw [show cs.append (']' :: tail) = cs ++ ']' :: tail from rfl, ih2]
    simp

theorem tryBracketAt_exact (s : List Char) (hs : (']' : Char) ∉ s) :
    tryBracketAt ("default=[".data ++ (s ++ [']'])) = some s := by
  have htake : (s ++ [']']).takeWhile (fun c => c != ']') = s := by
    have := takeWhile_append_stop (fun c => c != ']') s ']' []
      (fun c hm => by
        simp only [bne_iff_ne, ne_eq, decide_eq_true_eq]
        exact fun he => hs (he ▸ hm))
      (by simp)
    simpa using this
  have hcont : (s ++ [']']).contains ']' = true := by simp
  unfold tryBracketAt
  rw [if_pos (hasPrefixCL_append_self _ _)]
  show (if (s ++ [']']).contains ']' = true
        then some ((s ++ [']']).takeWhile (fun c => c != ']')) else none) = some s
  rw [if_pos hcont, htake]

theorem parsePart_bracket_default (s : List Char) (hs : (']' : Char) ∉ s) (acc : tagOptions) :
    parsePart ("default=[".data ++ (s ++ [']'])) acc = { acc with fallback := ⟨s⟩ } := by
  have hcond : (containsSub "default=[".data ("default=[".data ++ (s ++ [']'])) ||
      containsSub "fallback=[".data ("default=[".data ++ (s ++ [']']))) = true := by
    rw [containsSub_of_startsWith _ _ (by decide) (hasPrefixCL_append_self _ _)]
    rfl
  have hfind : findBracketFallback ("default=[".data ++ (s ++ [']'])) = some s := by
    have h1 : tryBracketAt ("default=[".data ++ (s ++ [']'])) = some s :=
      tryBracketAt_exact s hs
    show (match tryBracketAt ("default=[".data ++ (s ++ [']'])) with
          | some g => some g
          | none => findBracketFallback ("efault=[".data ++ (s ++ [']']))) = some s
    rw [h1]
  unfold parsePart
  rw [if_pos hcond, hfind]

/-- C5 counterexample: for the annotation K,default=[a,[b],c], whose
default value is wrapped in brackets with interior a,[b],c, parseTag does
not return the bracket interior verbatim: the comma after the inner
closing bracket is treated as top-level (the scan keeps a single boolean
flag, not a nesting depth) and the non-greedy regexp stops at the first
closing bracket, so the parsed fallback is a,[b. -/
theorem claim_C5_counterexample :
    (parseTag "K,default=[a,[b],c]").fallback = "a,[b" ∧
    (parseTag "K,default=[a,[b],c]").fallback ≠ "a,[b],c" := by
  constructor
  · decide
  · decide

/-- C5 (amended): for every annotation whose default value is wrapped in
brackets and whose interior contains no bracket characters, parseTag
returns the bracket interior verbatim -- commas inside the brackets are
preserved and do not split the option list.  The option splitting tracks
a single in-brackets boolean flag (not a nesting depth), and the
counterexample shows that with an interior containing brackets the
interior is not recovered verbatim. -/
theorem claim_C5 (k s : String) (hk : (',' : Char) ∉ k.data)
    (hs1 : ('[' : Char) ∉ s.data) (hs2 : (']' : Char) ∉ s.data) :
    parseTag (k ++ ",default=[" ++ s ++ "]") =
      { keys := (splitOnChar '|' k.data).map (fun l => (⟨l⟩ : String)),
        fallback := s, required := false, file := false, expand := false } := by
  have hdata : (k ++ ",default=[" ++ s ++ "]").data
      = k.data ++ ',' :: ("default=[".data ++ (s.data ++ [']'])) := by
    simp [data_append]
  have hsplit := splitFirst_append_sep ',' k.data ("default=[".data ++ (s.data ++ [']'])) hk
  have hpre : ∀ (X : List Char) (acc : tagOptions),
      scanParts false [] acc ("default=[".data ++ X) =
        scanParts true "default=[".data acc X := by
    intro X acc
    show scanParts false [] acc
        ('d' :: 'e' :: 'f' :: 'a' :: 'u' :: 'l' :: 't' :: '=' :: '[' :: X) = _
    simp [scanParts]
  calc parseTag (k ++ ",default=[" ++ s ++ "]")
      = scanParts false []
          { keys := (splitOnChar '|' k.data).map (fun l => (⟨l⟩ : String)),
            fallback := "", required := false, file := false, expand := false }
          ("default=[".data ++ (s.data ++ [']'])) := by
        simp only [parseTag, hdata, hsplit]
    _ = scanParts true "default=[".data
          { keys := (splitOnChar '|' k.data).map (fun l => (⟨l⟩ : String)),
            fallback := "", required := false, file := false, expand := false }
          (s.data ++ [']']) := hpre _ _
    _ = parsePart ("default=[".data ++ (s.data ++ [']']))
          { keys := (splitOnChar '|' k.data).map (fun l => (⟨l⟩ : String)),
            fallback := "", required := false, file := false, expand := false } := by
        have hb := scanParts_through_brackets s.data "default=[".data []
          { keys := (splitOnChar '|' k.data).map (fun l => (⟨l⟩ : String)),
            fallback := "", required := false, file := false, expand := false } hs1 hs2
        rw [hb]
        simp [scanParts]
    _ = { keys := (splitOnChar '|' k.data).map (fun l => (⟨l⟩ : String)),
          fallback := ⟨s.data⟩, required := false, file := false, expand := false } :=
        parsePart_bracket_default s.data hs2 _
    _ = { keys := (splitOnChar '|' k.data).map (fun l => (⟨l⟩ : String)),
          fallback := s, required := false, file := false, expand := false } := by
        rw [stringMk_data]

theorem claim_C5_witness :
    parseTag ("K" ++ ",default=[" ++ "a,b" ++ "]") =
      { keys := ["K"], fallback := "a,b", required := false, file := false, expand := false } := by
  rw [claim_C5 "K" "a,b" (by decide) (by decide) (by decide)]
  decide

/-! ## Lemmas about key lookup and resolution -/

theorem findFieldValue_cons_found (env : Env) (pfx k v : String) (ks : List String)
    (h : envLookup env (pfx ++ k) = some v) :
    findFieldValue env (k :: ks) pfx = (v, true) := by
  simp [findFieldValue, h]

theorem findFieldValue_append_absent (env : Env) (pfx : String) (ks1 ks2 : List String)
    (h : ∀ k' ∈ ks1, envLookup env (pfx ++ k') = none) :
    findFieldValue env (ks1 ++ ks2) pfx = findFieldValue env ks2 pfx := by
  induction ks1 with
  | nil => simp
  | cons a l ih =>
    have ha := h a (List.mem_cons_self a l)
    have ih2 := ih (fun k' hm => h k' (List.mem_cons_of_mem a hm))
    simp [findFieldValue, ha, ih2]

theorem findFieldValue_all_absent (env : Env) (pfx : String) (ks : List String)
    (h : ∀ k' ∈ ks, envLookup env (pfx ++ k') = none) :
    findFieldValue env ks pfx = ("", false) := by
  induction ks with
  | nil => rfl
  | cons a l ih =>
    have ha := h a (List.mem_cons_self a l)
    have ih2 := ih (fun k' hm => h k' (List.mem_cons_of_mem a hm))
    simp [findFieldValue, ha, ih2]

/-- C1: for every parsed field spec without the file and expand options,
the resolved pre-coercion value is the value of the first candidate key
(in declaration order, under the current prefix) that is present in the
environment, even when that value is the empty string; the fallback
expression is used only when no candidate key is present, so a present
key takes precedence over a declared fallback. -/
theorem claim_C1 (env : Env) (fs : FileSys) (ctx : List GoField)
    (opts : tagOptions) (pfx : String)
    (hfile : opts.file = false) (hexp : opts.expand = false) :
    (∀ ks1 k ks2 v, opts.keys = ks1 ++ k :: ks2 →
        (∀ k' ∈ ks1, envLookup env (pfx ++ k') = none) →
        envLookup env (pfx ++ k) = some v →
        ¬(opts.required = true ∧ v = "") →
        resolveValue env fs ctx opts pfx = .ok (v, true)) ∧
    ((∀ k ∈ opts.keys, envLookup env (pfx ++ k) = none) →
        ¬(opts.required = true ∧ opts.fallback = "") →
        resolveValue env fs ctx opts pfx = .ok (opts.fallback, false)) := by
  constructor
  · intro ks1 k ks2 v hkeys habs hfound hreq
    have hfv : findFieldValue env opts.keys pfx = (v, true) := by
      rw [hkeys, findFieldValue_append_absent env pfx ks1 (k :: ks2) habs,
        findFieldValue_cons_found env pfx k v ks2 hfound]
    unfold resolveValue
    rw [hfv]
    simp [hfile, hexp, hreq]
  · intro habs hreq
    have hfv : findFieldValue env opts.keys pfx = ("", false) :=
      findFieldValue_all_absent env pfx opts.keys habs
    unfold resolveValue
    rw [hfv]
    by_cases hfb : opts.fallback = ""
    · have hr : opts.required = false := by
        cases hr : opts.required
        · rfl
        · exact absurd ⟨hr, hfb⟩ hreq
      simp [hfile, hexp, hfb, hr]
    · simp [hfile, hexp, hreq, hfb]

theorem claim_C1_witness :
    resolveValue [("K2", "")] [] []
      { keys := ["K1", "K2", "K3"], fallback := "fb", required := false,
        file := false, expand := false } "" = .ok ("", true) ∧
    resolveValue [("X", "1")] [] []
      { keys := ["K1"], fallback := "fb", required := false,
        file := false, expand := false } "" = .ok ("fb", false) := by
  constructor
  · exact (claim_C1 [("K2", "")] [] [] _ "" rfl rfl).1 ["K1"] "K2" ["K3"] ""
      rfl (by decide) (by decide) (by decide)
  · exact (claim_C1 [("X", "1")] [] [] _ "" rfl rfl).2 (by decide) (by decide)

/-- The pre-coercion value of a field after key lookup, fallback
substitution and expansion -- the value the resolver tests against the
required flag when the file option is off (spec-side characterization
used to state the required-error claim). -/
def resolvedAfterExpansion (env : Env) (ctx : List GoField)
    (opts : tagOptions) (pfx : String) : String :=
  let p1 := findFieldValue env opts.keys pfx
  let value1 := if p1.2 = false ∧ opts.fallback ≠ "" then opts.fallback else p1.1
  if opts.expand = true then expandVariables env ctx value1 else value1

/-- C2 counterexample: for a required field, making a candidate key
present in the environment does not make resolution succeed when the
present value is the empty string -- the key K is present (bound to the
empty string), yet resolution still fails with the required error. -/
theorem claim_C2_counterexample :
    envLookup [("K", "")] "K" = some "" ∧
    resolveValue [("K", "")] [] []
      { keys := ["K"], fallback := "", required := true,
        file := false, expand := false } "" =
      .error "required environment variable K is not set" := by
  constructor
  · rfl
  · rfl

/-- C2 (amended): for every field spec without the file option, resolution
fails with the RequiredMissing error naming the first declared key if and
only if required is set and the value is still empty after key lookup,
fallback substitution and expansion; and making a candidate key the first
present key with a non-empty value makes the same call succeed for fields
without the expand option.  (As the counterexample shows, a present key
with an empty value does not rescue a required field.) -/
theorem claim_C2 (env : Env) (fs : FileSys) (ctx : List GoField)
    (opts : tagOptions) (pfx : String) (hfile : opts.file = false) :
    (resolveValue env fs ctx opts pfx = .error (requiredErr opts) ↔
      opts.required = true ∧ resolvedAfterExpansion env ctx opts pfx = "") ∧
    (opts.expand = false → ∀ v, findFieldValue env opts.keys pfx = (v, true) → v ≠ "" →
      resolveValue env fs ctx opts pfx = .ok (v, true)) := by
  constructor
  · rcases hp : findFieldValue env opts.keys pfx with ⟨v1, f1⟩
    unfold resolveValue resolvedAfterExpansion
    rw [hp]
    simp only [hfile, false_and, if_false, Bool.false_eq_true]
    split
    · simp
    · simp
  · intro hexp v hfv hv
    unfold resolveValue
    rw [hfv]
    simp [hfile, hexp, hv]

theorem claim_C2_witness :
    resolveValue [] [] []
      { keys := ["R"], fallback := "", required := true,
        file := false, expand := false } "" =
      .error "required environment variable R is not set" ∧
    resolveValue [("R", "x")] [] []
      { keys := ["R"], fallback := "", required := true,
        file := false, expand := false } "" = .ok ("x", true) := by
  constructor
  · exact (claim_C2 [] [] [] _ "" rfl).1.mpr ⟨rfl, rfl⟩
  · exact (claim_C2 [("R", "x")] [] [] _ "" rfl).2 rfl "x" rfl (by decide)

/-! ## Frame behaviour of empty values -/

theorem setField_empty (pf : String → Except String Nat) (fld : GoValue) :
    setField pf fld "" = .ok fld := by
  unfold setField
  simp

/-- C4: a field whose resolved value is the empty string is left at its
current (caller pre-set or zero) value, for every field kind: setField is
a no-op on the empty string, unmarshalField leaves the field untouched
whenever resolution produced the empty string, and in the concrete
scenario a pre-set Host survives an Unmarshal with no matching key and no
fallback. -/
theorem claim_C4 :
    (∀ (pf : String → Except String Nat) (fld : GoValue), setField pf fld "" = .ok fld) ∧
    (∀ (env : Env) (fs : FileSys) (pf : String → Except String Nat) (fld : GoValue)
        (tag pfx : String) (ctx : List GoField) (found : Bool),
        resolveValue env fs ctx (parseTag tag) pfx = .ok ("", found) →
        unmarshalField env fs pf fld tag pfx ctx = .ok fld) ∧
    (∀ pf : String → Except String Nat,
        Unmarshal [] [] pf [.scalar "HOST" (.vString "preset")] =
          .ok [.scalar "HOST" (.vString "preset")]) := by
  refine ⟨setField_empty, ?_, ?_⟩
  · intro env fs pf fld tag pfx ctx found h
    simp only [unmarshalField]
    rw [h]
    cases found
    · simp
    · simp [setField_empty]
  · intro pf
    simp [Unmarshal, unmarshalFields, unmarshalField, resolveValue, findFieldValue,
      envLookup, parseTag, splitFirst, splitOnChar, scanParts, parsePart, setField,
      containsSub, hasPrefixCL, trimChars, isSpaceChar, requiredErr]

theorem claim_C4_witness :
    unmarshalField [("HOST", "")] [] noFloat (.vInt .i8 7) "HOST" "" [] =
      .ok (.vInt .i8 7) :=
  claim_C4.2.1 [("HOST", "")] [] noFloat (.vInt .i8 7) "HOST" "" [] true rfl

/-! ## File indirection -/

/-- C6: when the file option is set and some candidate key was found, the
looked-up value is treated as a path and replaced by that file content
before coercion; a failing read aborts the whole resolution with exactly
the read error; when no key was found the file option is irrelevant; and
in the concrete scenario a field tagged KEY,file whose key points at a
file containing secret123 is set to secret123, while a missing path
yields the propagated read error. -/
theorem claim_C6 :
    (∀ (env : Env) (fs : FileSys) (ctx : List GoField) (opts : tagOptions)
        (pfx p e : String), opts.file = true →
        findFieldValue env opts.keys pfx = (p, true) →
        readFileContent fs p = .error e →
        resolveValue env fs ctx opts pfx = .error e) ∧
    (∀ (env : Env) (fs : FileSys) (ctx : List GoField) (opts : tagOptions)
        (pfx p c : String), opts.file = true →
        findFieldValue env opts.keys pfx = (p, true) →
        readFileContent fs p = .ok c →
        opts.expand = false →
        ¬(opts.required = true ∧ c = "") →
        resolveValue env fs ctx opts pfx = .ok (c, true)) ∧
    (∀ (env : Env) (fs : FileSys) (ctx : List GoField) (opts : tagOptions) (pfx : String),
        (findFieldValue env opts.keys pfx).2 = false →
        resolveValue env fs ctx opts pfx =
          resolveValue env fs ctx { opts with file := false } pfx) ∧
    (unmarshalField [("KEY", "/run/secret")] [("/run/secret", "secret123")] noFloat
        (.vString "") "KEY,file" "" [] = .ok (.vString "secret123")) ∧
    (unmarshalField [("KEY", "/run/secret")] [] noFloat
        (.vString "") "KEY,file" "" [] =
      .error "open /run/secret: no such file or directory") := by
  refine ⟨?_, ?_, ?_, ?_, ?_⟩
  · intro env fs ctx opts pfx p e hfile hfv hread
    unfold resolveValue
    rw [hfv]
    simp [hfile, hread]
  · intro env fs ctx opts pfx p c hfile hfv hread hexp hreq
    unfold resolveValue
    rw [hfv]
    simp [hfile, hread, hexp, hreq]
  · intro env fs ctx opts pfx hnf
    rcases hp : findFieldValue env opts.keys pfx with ⟨v1, f1⟩
    rw [hp] at hnf
    simp only at hnf
    subst hnf
    unfold resolveValue
    rw [hp]
    simp [requiredErr]
  · rfl
  · rfl

theorem claim_C6_witness :
    resolveValue [("K", "/p")] [] []
      { keys := ["K"], fallback := "", required := false, file := true, expand := false }
      "" = .error "open /p: no such file or directory" ∧
    resolveValue [("K", "/p")] [("/p", "data")] []
      { keys := ["K"], fallback := "", required := false, file := true, expand := false }
      "" = .ok ("data", true) := by
  constructor
  · exact claim_C6.1 [("K", "/p")] [] [] _ "" "/p" _ rfl rfl rfl
  · exact claim_C6.2.1 [("K", "/p")] [("/p", "data")] [] _ "" "/p" "data"
      rfl rfl rfl rfl (by simp)

/-! ## Prefix propagation into nested structs -/

/-- C3: entering a nested struct field extends the prefix by the field
tag plus an underscore when the tag is nonempty and leaves it unchanged
when the tag is empty, and concretely an Outer struct containing a
struct field tagged INNER whose inner field is tagged F resolves that
field under the key INNER_F. -/
theorem claim_C3 :
    (∀ (env : Env) (fs : FileSys) (pf : String → Except String Nat)
        (pfx tag : String) (sub rest ctx : List GoField), tag ≠ "" →
        unmarshalFields env fs pf pfx ctx (.nested tag sub :: rest) =
          match unmarshalFields env fs pf (pfx ++ tag ++ "_") sub sub with
          | .error e => .error e
          | .ok sub2 =>
            match unmarshalFields env fs pf pfx ctx rest with
            | .error e => .error e
            | .ok rest2 => .ok (.nested tag sub2 :: rest2)) ∧
    (∀ (env : Env) (fs : FileSys) (pf : String → Except String Nat)
        (pfx tag : String) (sub rest ctx : List GoField), tag = "" →
        unmarshalFields env fs pf pfx ctx (.nested tag sub :: rest) =
          match unmarshalFields env fs pf pfx sub sub with
          | .error e => .error e
          | .ok sub2 =>
            match unmarshalFields env fs pf pfx ctx rest with
            | .error e => .error e
            | .ok rest2 => .ok (.nested tag sub2 :: rest2)) ∧
    (∀ pf : String → Except String Nat,
        Unmarshal [("INNER_F", "v")] [] pf [.nested "INNER" [.scalar "F" (.vString "")]] =
          .ok [.nested "INNER" [.scalar "F" (.vString "v")]]) := by
  refine ⟨?_, ?_, ?_⟩
  · intro env fs pf pfx tag sub rest ctx htag
    simp only [unmarshalFields]
    simp [htag]
  · intro env fs pf pfx tag sub rest ctx htag
    simp only [unmarshalFields]
    simp [htag]
  · intro pf
    simp [Unmarshal, unmarshalFields, unmarshalField, resolveValue, findFieldValue,
      envLookup, parseTag, splitFirst, splitOnChar, scanParts, parsePart, setField,
      containsSub, hasPrefixCL, trimChars, isSpaceChar, requiredErr]

theorem claim_C3_witness :
    unmarshalFields [("T_F", "x")] [] noFloat "" [] [.nested "T" [.scalar "F" (.vString "")]] =
      match unmarshalFields [("T_F", "x")] [] noFloat ("" ++ "T" ++ "_")
          [.scalar "F" (.vString "")] [.scalar "F" (.vString "")] with
      | .error e => .error e
      | .ok sub2 =>
        match unmarshalFields [("T_F", "x")] [] noFloat "" [] [] with
        | .error e => .error e
        | .ok rest2 => .ok (.nested "T" sub2 :: rest2) :=
  claim_C3.1 [("T_F", "x")] [] noFloat "" "T" [.scalar "F" (.vString "")] [] []
    (by decide)

/-! ## Placeholder expansion claims -/

/-- C7 counterexample: expansion does not replace each placeholder by its
own environment value.  With A bound to x and AB bound to y, the value
with placeholders for A and for AB expands to x xB, not x y: the
sequential strings.Replace for the first match also rewrites the prefix
of the second placeholder, clobbering it. -/
theorem claim_C7_counterexample :
    expandVariables [("A", "x"), ("AB", "y")] [] "$A $AB" = "x xB" ∧
    expandVariables [("A", "x"), ("AB", "y")] [] "$A $AB" ≠ "x y" := by
  have h : expandVariables [("A", "x"), ("AB", "y")] [] "$A $AB" = "x xB" := by
    simp [expandVariables, findAllMatches, tryMatchAt, braceMatch, dollarNameMatch,
      replaceAllCL, envLookup, getDefaultFromStruct, isAlphaUnder, isAlphaNumUnder,
      hasPrefixCL, List.takeWhile, List.drop]
  exact ⟨h, by rw [h]; decide⟩

/-- C7 (amended): placeholder matches are found left to right by a single
regexp pass over the original value and then substituted sequentially,
each by replacing every occurrence of its matched text in the running
value (environment value of the name if present, else the fallback of the
first field anywhere in the struct whose primary key equals the name,
else the empty string); this coincides with independent per-placeholder
replacement only when the matched texts do not interfere (see the
counterexample).  Concretely: the ADDR field with default placeholders
for HOST and PORT resolves to localhost:8080; a placeholder prefers the
environment over a struct default; an absent name falls back to the
declared default of the matching field, found also inside nested
structs; and an entirely unknown name is replaced by the empty string. -/
theorem claim_C7 :
    (Unmarshal [("HOST", "localhost"), ("PORT", "8080")] [] noFloat
        [.scalar "ADDR,default=${HOST}:${PORT},expand" (.vString "")] =
      .ok [.scalar "ADDR,default=${HOST}:${PORT},expand" (.vString "localhost:8080")]) ∧
    (expandVariables [("HOST", "h")] [.scalar "HOST,default=hd" (.vString "")]
      "${HOST}" = "h") ∧
    (expandVariables [] [.scalar "HOST,default=hd" (.vString "")] "${HOST}" = "hd") ∧
    (expandVariables [] [.nested "G" [.scalar "HOST,default=hd" (.vString "")]]
      "${HOST}" = "hd") ∧
    (expandVariables [] [] "${HOST}" = "") := by
  refine ⟨?_, ?_, ?_, ?_, ?_⟩
  · simp [Unmarshal, unmarshalFields, unmarshalField, resolveValue, findFieldValue,
      envLookup, parseTag, splitFirst, splitOnChar, scanParts, parsePart, setField,
      containsSub, hasPrefixCL, trimChars, isSpaceChar, requiredErr, expandVariables,
      findAllMatches, tryMatchAt, braceMatch, dollarNameMatch, replaceAllCL,
      getDefaultFromStruct, isAlphaUnder, isAlphaNumUnder, findPlainFallback,
      tryPlainAt, findBracketFallback, tryBracketAt, List.takeWhile, List.drop]
  · simp [expandVariables, findAllMatches, tryMatchAt, braceMatch, dollarNameMatch,
      replaceAllCL, envLookup, getDefaultFromStruct, isAlphaUnder, isAlphaNumUnder,
      hasPrefixCL, List.takeWhile, List.drop, parseTag, splitFirst, splitOnChar,
      scanParts, parsePart, containsSub, trimChars, isSpaceChar, findPlainFallback,
      tryPlainAt, findBracketFallback, tryBracketAt]
  · simp [expandVariables, findAllMatches, tryMatchAt, braceMatch, dollarNameMatch,
      replaceAllCL, envLookup, getDefaultFromStruct, isAlphaUnder, isAlphaNumUnder,
      hasPrefixCL, List.takeWhile, List.drop, parseTag, splitFirst, splitOnChar,
      scanParts, parsePart, containsSub, trimChars, isSpaceChar, findPlainFallback,
      tryPlainAt, findBracketFallback, tryBracketAt]
  · simp [expandVariables, findAllMatches, tryMatchAt, braceMatch, dollarNameMatch,
      replaceAllCL, envLookup, getDefaultFromStruct, isAlphaUnder, isAlphaNumUnder,
      hasPrefixCL, List.takeWhile, List.drop, parseTag, splitFirst, splitOnChar,
      scanParts, parsePart, containsSub, trimChars, isSpaceChar, findPlainFallback,
      tryPlainAt, findBracketFallback, tryBracketAt]
  · simp [expandVariables, findAllMatches, tryMatchAt, braceMatch, dollarNameMatch,
      replaceAllCL, envLookup, getDefaultFromStruct, isAlphaUnder, isAlphaNumUnder,
      hasPrefixCL, List.takeWhile, List.drop]

/-! ## Integer coercion claims -/

/-- C8 counterexample: input that overflows the field integer type but
fits in 64 bits does not make population fail.  An int8 field populated
from the value 300 succeeds: ParseInt always runs at bit size 64 and the
reflect setter truncates, storing 300 mod 256 = 44. -/
theorem claim_C8_counterexample :
    setField noFloat (.vInt .i8 0) "300" = .ok (.vInt .i8 44) ∧
    Unmarshal [("N", "300")] [] noFloat [.scalar "N" (.vInt .i8 0)] =
      .ok [.scalar "N" (.vInt .i8 44)] := by
  constructor
  · rfl
  · simp [Unmarshal, unmarshalFields, unmarshalField, resolveValue, findFieldValue,
      envLookup, parseTag, splitFirst, splitOnChar, scanParts, parsePart, setField,
      containsSub, hasPrefixCL, trimChars, isSpaceChar, requiredErr, goParseInt,
      natOfDigitsAux, digitVal, wrapInt, IntW.bits, Except.map]

/-- C8 (amended): for every signed or unsigned integer field, a nonempty
value is parsed as a base-10 integer at bit size 64: non-numeric input
and input outside the 64-bit range produce an error (the ParseInt or
ParseUint error), while any successfully parsed value is stored truncated
to the field width (two's-complement wrap), so overflow of a narrower
field type does not fail -- see the counterexample. -/
theorem claim_C8 (pf : String → Except String Nat) (s : String) (hs : s ≠ "") :
    (∀ (w : IntW) (v0 : Int) (e : String), goParseInt s 64 = .error e →
        setField pf (.vInt w v0) s = .error e) ∧
    (∀ (w : IntW) (v0 n : Int), goParseInt s 64 = .ok n →
        setField pf (.vInt w v0) s = .ok (.vInt w (wrapInt w.bits n))) ∧
    (∀ (w : UintW) (v0 : Nat) (e : String), goParseUint s 64 = .error e →
        setField pf (.vUint w v0) s = .error e) ∧
    (∀ (w : UintW) (v0 n : Nat), goParseUint s 64 = .ok n →
        setField pf (.vUint w v0) s = .ok (.vUint w (wrapUint w.bits n))) := by
  refine ⟨?_, ?_, ?_, ?_⟩
  · intro w v0 e h
    unfold setField
    rw [if_neg hs, h]
    rfl
  · intro w v0 n h
    unfold setField
    rw [if_neg hs, h]
    rfl
  · intro w v0 e h
    unfold setField
    rw [if_neg hs, h]
    rfl
  · intro w v0 n h
    unfold setField
    rw [if_neg hs, h]
    rfl

theorem claim_C8_witness :
    setField noFloat (.vInt .i8 0) "12" = .ok (.vInt .i8 (wrapInt 8 12)) ∧
    setField noFloat (.vInt .i8 0) "abc" = .error "invalid syntax: abc" ∧
    setField noFloat (.vUint .u64 0) "18446744073709551616" =
      .error "value out of range: 18446744073709551616" := by
  refine ⟨?_, ?_, ?_⟩
  · exact (claim_C8 noFloat "12" (by decide)).2.1 .i8 0 12 rfl
  · exact (claim_C8 noFloat "abc" (by decide)).1 .i8 0 "invalid syntax: abc" rfl
  · exact (claim_C8 noFloat "18446744073709551616" (by decide)).2.2.1 .u64 0
      "value out of range: 18446744073709551616" rfl

/-! ## Slice round-trip claims -/

/-- Decimal digit characters of a natural number, most significant digit
first (the claim-side rendering of an integer). -/
def natDecimal (n : Nat) : List Char :=
  if n < 10 then [Char.ofNat (48 + n)]
  else natDecimal (n / 10) ++ [Char.ofNat (48 + n % 10)]
termination_by n
decreasing_by exact Nat.div_lt_self (by omega) (by omega)

/-- Claim-side rendering of a Go int (strconv.FormatInt base 10). -/
def goFormatInt (i : Int) : String :=
  if i < 0 then ⟨'-' :: natDecimal i.natAbs⟩ else ⟨natDecimal i.natAbs⟩

/-- Claim-side rendering of a Go bool (strconv.FormatBool). -/
def goFormatBool (b : Bool) : String :=
  if b then "true" else "false"

/-- Comma-join of character lists. -/
def joinCL (sep : Char) : List (List Char) → List Char
  | [] => []
  | [l] => l
  | l :: l2 :: ls => l ++ sep :: joinCL sep (l2 :: ls)

/-- Claim-side comma-joined rendering of a slice from an element
renderer. -/
def renderJoin {α : Type} (render : α → String) (xs : List α) : String :=
  ⟨joinCL ',' (xs.map (fun x => (render x).data))⟩

theorem natOfDigitsAux_append (l1 l2 : List Char) :
    ∀ acc, natOfDigitsAux acc (l1 ++ l2) =
      match natOfDigitsAux acc l1 with
      | none => none
      | some m => natOfDigitsAux m l2 := by
  induction l1 with
  | nil => intro acc; simp [natOfDigitsAux]
  | cons c cs ih =>
    intro acc
    simp only [List.cons_append, natOfDigitsAux]
    cases hd : digitVal c with
    | none => simp
    | some d => simpa using ih (acc * 10 + d)

theorem digitVal_ofNat (d : Nat) (h : d < 10) :
    digitVal (Char.ofNat (48 + d)) = some d := by
  interval_cases d <;> decide

theorem natDecimal_digits (n : Nat) :
    ∀ c ∈ natDecimal n, ∃ d, d < 10 ∧ c = Char.ofNat (48 + d) := by
  induction n using Nat.strong_induction_on with
  | _ n ih =>
    intro c hc
    by_cases h : n < 10
    · rw [natDecimal, if_pos h] at hc
      simp only [List.mem_singleton] at hc
      exact ⟨n, h, hc⟩
    · rw [natDecimal, if_neg h] at hc
      rcases List.mem_append.mp hc with h1 | h2
      · exact ih (n / 10) (Nat.div_lt_self (by omega) (by omega)) c h1
      · simp only [List.mem_singleton] at h2
        exact ⟨n % 10, Nat.mod_lt n (by omega), h2⟩

theorem natDecimal_ne_nil (n : Nat) : natDecimal n ≠ [] := by
  rw [natDecimal]
  split <;> simp

theorem natOfDigitsAux_natDecimal (n : Nat) :
    ∀ acc, natOfDigitsAux acc (natDecimal n) =
      some (acc * 10 ^ (natDecimal n).length + n) := by
  induction n using Nat.strong_induction_on with
  | _ n ih =>
    intro acc
    by_cases h : n < 10
    · rw [natDecimal, if_pos h]
      have hd := digitVal_ofNat n h
      simp [natOfDigitsAux, hd]
    · have h10 : n / 10 < n := Nat.div_lt_self (by omega) (by omega)
      have hd := digitVal_ofNat (n % 10) (Nat.mod_lt n (by omega))
      rw [natDecimal, if_neg h, natOfDigitsAux_append, ih (n / 10) h10 acc]
      simp only [natOfDigitsAux, hd, List.length_append, List.length_cons,
        List.length_nil]
      congr 1
      have hmod : n / 10 * 10 + n % 10 = n := by omega
      calc (acc * 10 ^ (natDecimal (n / 10)).length + n / 10) * 10 + n % 10
          = acc * (10 ^ (natDecimal (n / 10)).length * 10) + (n / 10 * 10 + n % 10) := by
            ring
        _ = acc * 10 ^ ((natDecimal (n / 10)).length + 1) + n := by
            rw [hmod, pow_succ]

theorem natDecimal_not_comma (n : Nat) : ∀ c ∈ natDecimal n, c ≠ ',' := by
  intro c hc
  rcases natDecimal_digits n c hc with ⟨d, hd, rfl⟩
  interval_cases d <;> decide

theorem goFormatInt_no_comma (i : Int) : (',' : Char) ∉ (goFormatInt i).data := by
  unfold goFormatInt
  split
  · intro hmem
    rcases List.mem_cons.mp hmem with h1 | h2
    · exact absurd h1.symm (by decide)
    · exact natDecimal_not_comma _ _ h2 rfl
  · intro hmem
    exact natDecimal_not_comma _ _ hmem rfl

theorem goParseInt_goFormatInt (i : Int) (h1 : -(2 ^ 63 : Int) ≤ i) (h2 : i < 2 ^ 63) :
    goParseInt (goFormatInt i) 64 = .ok i := by
  by_cases hneg : i < 0
  · obtain ⟨d0, ds, hl⟩ : ∃ d0 ds, natDecimal i.natAbs = d0 :: ds := by
      rcases hnd : natDecimal i.natAbs with _ | ⟨d0, ds⟩
      · exact absurd hnd (natDecimal_ne_nil _)
      · exact ⟨d0, ds, rfl⟩
    have hds : (goFormatInt i).data = '-' :: natDecimal i.natAbs := by
      unfold goFormatInt
      rw [if_pos hneg]
    unfold goParseInt
    rw [hds, hl]
    simp only [show (('-' : Char) == '+') = false from by decide,
      show (('-' : Char) == '-') = true from by decide, Bool.false_eq_true,
      if_false, if_true]
    rw [← hl, natOfDigitsAux_natDecimal]
    have habs : -((i.natAbs : Nat) : Int) = i := by omega
    simp only [Nat.zero_mul, Nat.zero_add, habs]
    rw [if_pos ⟨h1, h2⟩]
  · obtain ⟨d0, ds, hl⟩ : ∃ d0 ds, natDecimal i.natAbs = d0 :: ds := by
      rcases hnd : natDecimal i.natAbs with _ | ⟨d0, ds⟩
      · exact absurd hnd (natDecimal_ne_nil _)
      · exact ⟨d0, ds, rfl⟩
    have hds : (goFormatInt i).data = natDecimal i.natAbs := by
      unfold goFormatInt
      rw [if_neg hneg]
    obtain ⟨d, hd10, hdeq⟩ :=
      natDecimal_digits i.natAbs d0 (hl ▸ List.mem_cons_self d0 ds)
    have hplus : (d0 == '+') = false := by
      subst hdeq; interval_cases d <;> decide
    have hminus : (d0 == '-') = false := by
      subst hdeq; interval_cases d <;> decide
    unfold goParseInt
    rw [hds, hl]
    simp only [hplus, hminus, Bool.false_eq_true, if_false]
    rw [← hl, natOfDigitsAux_natDecimal]
    have habs : ((i.natAbs : Nat) : Int) = i := by omega
    simp only [Nat.zero_mul, Nat.zero_add, habs]
    rw [if_pos ⟨h1, h2⟩]

theorem parseBool_goFormatBool (b : Bool) : parseBool (goFormatBool b) = .ok b := by
  cases b <;> rfl

theorem goFormatBool_no_comma (b : Bool) : (',' : Char) ∉ (goFormatBool b).data := by
  cases b <;> decide

theorem splitOnChar_no_sep (sep : Char) (l : List Char) (h : sep ∉ l) :
    splitOnChar sep l = [l] := by
  induction l with
  | nil => rfl
  | cons c cs ih =>
    have hc : c ≠ sep := fun he => h (he ▸ List.mem_cons_self c cs)
    have ih2 := ih (fun hm => h (List.mem_cons_of_mem c hm))
    simp [splitOnChar, ih2, hc]

theorem splitOnChar_append_sep (sep : Char) (l r : List Char) (h : sep ∉ l) :
    splitOnChar sep (l ++ sep :: r) = l :: splitOnChar sep r := by
  induction l with
  | nil =>
    rcases hs : splitOnChar sep r with _ | ⟨hd, tl⟩
    · exact absurd hs (splitOnChar_ne_nil sep r)
    · simp [splitOnChar, hs]
  | cons c cs ih =>
    have hc : c ≠ sep := fun he => h (he ▸ List.mem_cons_self c cs)
    have ih2 := ih (fun hm => h (List.mem_cons_of_mem c hm))
    simp only [List.cons_append, splitOnChar, List.append_eq]
    rw [ih2]
    simp [hc]

theorem splitOnChar_joinCL (sep : Char) :
    ∀ ls : List (List Char), ls ≠ [] → (∀ l ∈ ls, sep ∉ l) →
      splitOnChar sep (joinCL sep ls) = ls := by
  intro ls
  induction ls with
  | nil => intro h; exact absurd rfl h
  | cons l rest ih =>
    intro _ hmem
    cases rest with
    | nil =>
      simp only [joinCL]
      exact splitOnChar_no_sep sep l (hmem l (List.mem_cons_self l []))
    | cons l2 rest2 =>
      simp only [joinCL]
      rw [splitOnChar_append_sep sep l _ (hmem l (List.mem_cons_self l _))]
      rw [ih (by simp) (fun l' hl' => hmem l' (List.mem_cons_of_mem l hl'))]

theorem goSplit_renderJoin {α : Type} (render : α → String) (xs : List α)
    (hne : xs ≠ []) (hc : ∀ x ∈ xs, (',' : Char) ∉ (render x).data) :
    goSplit (renderJoin render xs) ',' = xs.map render := by
  unfold goSplit renderJoin
  rw [show (⟨joinCL ',' (xs.map (fun x => (render x).data))⟩ : String).data =
        joinCL ',' (xs.map (fun x => (render x).data)) from rfl]
  rw [splitOnChar_joinCL ',' _ (by simpa using hne) (by
    intro l hl
    rcases List.mem_map.mp hl with ⟨x, hx, rfl⟩
    exact hc x hx)]
  simp [List.map_map, Function.comp, stringMk_data]

theorem mapExcept_map_ok {α β : Type} (parse : String → Except String β)
    (render : α → String) (g : α → β) :
    ∀ xs : List α, (∀ x ∈ xs, parse (render x) = .ok (g x)) →
      mapExcept parse (xs.map render) = .ok (xs.map g) := by
  intro xs
  induction xs with
  | nil => intro _; rfl
  | cons a l ih =>
    intro h
    have ha := h a (List.mem_cons_self a l)
    have ih2 := ih (fun x hm => h x (List.mem_cons_of_mem a hm))
    simp [mapExcept, ha, ih2]

/-- C9 counterexample: the empty slice does not round-trip.  Rendering an
empty slice yields the empty string, splitting the empty string on commas
yields one empty piece, and every element parser fails on the empty
piece, so re-coercion errors instead of returning the empty slice. -/
theorem claim_C9_counterexample :
    parseIntSlice (renderJoin goFormatInt ([] : List Int)) = .error "invalid syntax: " ∧
    parseBoolSlice (renderJoin goFormatBool ([] : List Bool)) =
      .error "invalid boolean value " ∧
    parseFloatSlice noFloat (renderJoin (fun _ => "0") ([] : List Nat)) =
      .error "ParseFloat: parsing : invalid syntax" := by
  refine ⟨?_, ?_, ?_⟩ <;> rfl

/-- C9 (amended): for every nonempty slice of ints, bools, or floats,
rendering the slice to a comma-joined string of its elements and coercing
that string again yields the original typed slice: the comma-split
element-wise parsers are left inverses of comma-joined rendering on
nonempty slices (for ints, on elements within the 64-bit range; for
floats, whenever the element parser inverts the element renderer, which
is the modulo-precision hedge of the claim).  The empty slice is the
counterexample: it renders to the empty string, which fails to re-parse. -/
theorem claim_C9 :
    (∀ xs : List Int, xs ≠ [] → (∀ x ∈ xs, -(2 ^ 63 : Int) ≤ x ∧ x < 2 ^ 63) →
        parseIntSlice (renderJoin goFormatInt xs) = .ok xs) ∧
    (∀ bs : List Bool, bs ≠ [] → parseBoolSlice (renderJoin goFormatBool bs) = .ok bs) ∧
    (∀ (pf : String → Except String Nat) (renderF : Nat → String),
        (∀ x, pf (renderF x) = .ok x) → (∀ x, (',' : Char) ∉ (renderF x).data) →
        ∀ xs : List Nat, xs ≠ [] → parseFloatSlice pf (renderJoin renderF xs) = .ok xs) := by
  refine ⟨?_, ?_, ?_⟩
  · intro xs hne hrange
    unfold parseIntSlice
    rw [goSplit_renderJoin goFormatInt xs hne (fun x _ => goFormatInt_no_comma x)]
    exact (mapExcept_map_ok (fun v => goParseInt v 64) goFormatInt id xs
      (fun x hx => goParseInt_goFormatInt x (hrange x hx).1 (hrange x hx).2)).trans
      (by rw [List.map_id])
  · intro bs hne
    unfold parseBoolSlice
    rw [goSplit_renderJoin goFormatBool bs hne (fun b _ => goFormatBool_no_comma b)]
    exact (mapExcept_map_ok parseBool goFormatBool id bs
      (fun b _ => parseBool_goFormatBool b)).trans (by rw [List.map_id])
  · intro pf renderF hinv hc xs hne
    unfold parseFloatSlice
    rw [goSplit_renderJoin renderF xs hne (fun x _ => hc x)]
    exact (mapExcept_map_ok pf renderF id xs (fun x _ => hinv x)).trans (by rw [List.map_id])

theorem claim_C9_witness :
    parseIntSlice (renderJoin goFormatInt [1, -2, 30]) = .ok [1, -2, 30] ∧
    parseBoolSlice (renderJoin goFormatBool [true, false]) = .ok [true, false] := by
  constructor
  · exact claim_C9.1 [1, -2, 30] (by decide) (by decide)
  · exact claim_C9.2.1 [true, false] (by decide)

end EnvSpec
